import Mathlib

/-!
# Verification of the voicci-cli job store, worker and text pipeline

Shallow embedding, in Lean 4, of the parts of the `voicci-cli` repository
that the specification talks about:

* `src/lib/queue.js` — the JSON-backed job/chapter store (`Queue`);
* `src/backend/worker.js` — the polling worker, its retry loop and the
  synthesis-invoker adapter;
* `src/lib/text-cleaner.js` (v1) and `src/lib/text-cleaner-v2.js` (v2) —
  the cleaning pipeline and the chapter segmenter.

JavaScript strings are modelled as `List Char` (the inputs of interest are
ASCII), object maps keyed by id as association lists, `Date.now()` as an
explicit `now : Nat` argument, and the file-system / subprocess boundary as
explicit outcome values.  Each definition carries a pointer to the source
lines it embeds.
-/

namespace Voicci

/-! ## Job store (`src/lib/queue.js`) -/

/-- Job / chapter status enumeration: `'pending' | 'processing' | 'completed'
| 'failed'` (queue.js uses plain strings). -/
inductive JStatus where
  | pending
  | processing
  | completed
  | failed
deriving DecidableEq, Repr

/-- One record of `this.data.jobs` (queue.js lines 34–49). -/
structure Job where
  title : String
  source_file : String
  status : JStatus
  total_chapters : Nat
  completed_chapters : Nat
  total_words : Nat
  estimated_minutes : Nat
  output_dir : Option String
  created_at : Nat
  updated_at : Nat
  started_at : Option Nat
  completed_at : Option Nat
  error : Option String
deriving DecidableEq, Repr

/-- One record of `this.data.chapters` (queue.js lines 56–70). -/
structure Chapter where
  job_id : String
  chapter_num : Nat
  title : String
  text : String
  word_count : Nat
  status : JStatus
  audio_file : Option String
  created_at : Nat
  updated_at : Nat
  started_at : Option Nat
  completed_at : Option Nat
  error : Option String
deriving DecidableEq, Repr

/-- The in-memory state `this.data` (queue.js line 16): two collections keyed
by id.  JS object keys are unique; we model them as association lists keyed
by the id string. -/
structure StoreData where
  jobs : List (String × Job)
  chapters : List (String × Chapter)
deriving DecidableEq, Repr

/-- Key lookup in an association list — the read `this.data.jobs[id]`. -/
def getKey {β : Type} (l : List (String × β)) (key : String) : Option β :=
  match l with
  | [] => none
  | kv :: rest => if kv.1 = key then some kv.2 else getKey rest key

/-- Update the value stored under `key` (if present), leaving other entries
alone — the effect of `this.data.jobs[id] = …` style in-place mutation. -/
def setKey {β : Type} (l : List (String × β)) (key : String) (v : β) :
    List (String × β) :=
  l.map fun kv => if kv.1 = key then (kv.1, v) else kv

/-- queue.js lines 166–168: `Object.values(this.data.chapters).filter(ch =>
ch.job_id === jobId && ch.status === 'completed').length`. -/
def countCompleted (chapters : List (String × Chapter)) (jobId : String) : Nat :=
  ((chapters.map Prod.snd).filter
    (fun ch => ch.job_id = jobId ∧ ch.status = JStatus.completed)).length

/-- `Queue.updateJobStatus` (queue.js lines 112–130).  The returned `Bool`
records whether `saveQueue()` ran (a persistence write). -/
def updateJobStatus (d : StoreData) (now : Nat) (jobId : String)
    (status : JStatus) (error : Option String) : StoreData × Bool :=
  match getKey d.jobs jobId with
  | none => (d, false)
  | some job =>
    let job := { job with
      status := status
      updated_at := now
      started_at := if status = JStatus.processing then some now else job.started_at
      completed_at :=
        if status = JStatus.completed ∨ status = JStatus.failed then some now
        else job.completed_at
      error := match error with
        | some e => some e
        | none => job.error }
    ({ d with jobs := setKey d.jobs jobId job }, true)

/-- `Queue.updateJobOutputDir` (queue.js lines 132–139). -/
def updateJobOutputDir (d : StoreData) (now : Nat) (jobId : String)
    (outputDir : String) : StoreData × Bool :=
  match getKey d.jobs jobId with
  | none => (d, false)
  | some job =>
    let job := { job with output_dir := some outputDir, updated_at := now }
    ({ d with jobs := setKey d.jobs jobId job }, true)

/-- `Queue.updateChapterStatus` (queue.js lines 141–174): mutate the chapter,
then — on a `'completed'` update only — recount the owning job's
`completed_chapters` over all chapters and bump the job. -/
def updateChapterStatus (d : StoreData) (now : Nat) (chapterId : String)
    (status : JStatus) (audioFile : Option String) (error : Option String) :
    StoreData × Bool :=
  match getKey d.chapters chapterId with
  | none => (d, false)
  | some ch =>
    let ch := { ch with
      status := status
      updated_at := now
      started_at := if status = JStatus.processing then some now else ch.started_at
      completed_at :=
        if status = JStatus.completed ∨ status = JStatus.failed then some now
        else ch.completed_at
      audio_file := match audioFile with
        | some a => some a
        | none => ch.audio_file
      error := match error with
        | some e => some e
        | none => ch.error }
    let chapters := setKey d.chapters chapterId ch
    let jobs :=
      if status = JStatus.completed then
        match getKey d.jobs ch.job_id with
        | some job =>
          setKey d.jobs ch.job_id
            { job with
              completed_chapters := countCompleted chapters ch.job_id
              updated_at := now }
        | none => d.jobs
      else d.jobs
    ({ jobs := jobs, chapters := chapters }, true)

/-! ### Store lemmas -/

theorem getKey_setKey_self {β : Type} (l : List (String × β)) (key : String)
    (v : β) (h : (getKey l key).isSome) : getKey (setKey l key v) key = some v := by
  induction l with
  | nil => simp [getKey] at h
  | cons kv rest ih =>
    by_cases hk : kv.1 = key
    · simp [setKey, getKey, hk]
    · simp [setKey, getKey, hk] at h ⊢
      exact ih h

theorem getKey_setKey_other {β : Type} (l : List (String × β)) (key other : String)
    (v : β) (h : other ≠ key) : getKey (setKey l key v) other = getKey l other := by
  induction l with
  | nil => simp [setKey, getKey]
  | cons kv rest ih =>
    show getKey ((if kv.1 = key then (kv.1, v) else kv) :: setKey rest key v) other
        = getKey (kv :: rest) other
    by_cases hk : kv.1 = key
    · have hko : kv.1 ≠ other := by rw [hk]; exact fun h2 => h h2.symm
      rw [if_pos hk]
      show (if kv.1 = other then some v else getKey (setKey rest key v) other)
          = getKey (kv :: rest) other
      rw [if_neg hko, ih]
      show getKey rest other = getKey (kv :: rest) other
      simp only [getKey, if_neg hko]
    · rw [if_neg hk]
      show (if kv.1 = other then some kv.2 else getKey (setKey rest key v) other)
          = if kv.1 = other then some kv.2 else getKey rest other
      rw [ih]

/-! ### Claim theorems about the store -/

/-- C1: after any `updateChapterStatus` call that sets an existing chapter to
`'completed'` (queue.js lines 141–174), the owning job's
`completed_chapters` field equals the recount of that job's chapters whose
status is `'completed'` in the resulting state.  The statement quantifies
over an arbitrary prior store state `d`, so it applies at every observed
instant after any subsequent chapter-completion update as well. -/
theorem completed_chapters_recount (d : StoreData) (now : Nat)
    (chapterId : String) (audioFile error : Option String) (ch : Chapter)
    (job : Job) (hch : getKey d.chapters chapterId = some ch)
    (hjob : getKey d.jobs ch.job_id = some job) :
    ∃ job',
      getKey (updateChapterStatus d now chapterId JStatus.completed
          audioFile error).1.jobs ch.job_id = some job'
      ∧ job'.completed_chapters =
          countCompleted (updateChapterStatus d now chapterId JStatus.completed
            audioFile error).1.chapters ch.job_id := by
  unfold updateChapterStatus
  rw [hch]
  simp only [hjob, if_pos rfl]
  exact ⟨_, getKey_setKey_self _ _ _ (by rw [hjob]; rfl), rfl⟩

/-- Concrete one-job, one-chapter store used by the C1 witness. -/
def wJob : Job :=
  { title := "t", source_file := "s", status := JStatus.processing,
    total_chapters := 1, completed_chapters := 0, total_words := 2,
    estimated_minutes := 1, output_dir := none, created_at := 0,
    updated_at := 0, started_at := none, completed_at := none, error := none }

/-- Concrete chapter used by the C1 witness. -/
def wCh : Chapter :=
  { job_id := "j1", chapter_num := 1, title := "ch", text := "a b",
    word_count := 2, status := JStatus.processing, audio_file := none,
    created_at := 0, updated_at := 0, started_at := none,
    completed_at := none, error := none }

/-- Concrete store used by the C1 witness. -/
def wStore : StoreData := ⟨[("j1", wJob)], [("c1", wCh)]⟩

/-- Witness for C1 at a concrete one-job, one-chapter store. -/
theorem completed_chapters_recount_witness :
    ∃ job',
      getKey (updateChapterStatus wStore 5 "c1" JStatus.completed
          (some "out.wav") none).1.jobs "j1" = some job'
      ∧ job'.completed_chapters =
          countCompleted (updateChapterStatus wStore 5 "c1" JStatus.completed
            (some "out.wav") none).1.chapters "j1" :=
  completed_chapters_recount wStore 5 "c1" (some "out.wav") none wCh wJob rfl rfl

/-- C10: `updateJobStatus`, `updateJobOutputDir` and `updateChapterStatus`
each guard with `if (!job) return;` / `if (!chapter) return;` (queue.js
lines 114, 134, 143) before any mutation, so a missing id returns with the
in-memory data unchanged and without a `saveQueue()` persistence write
(the `false` component). -/
theorem missing_id_noop (d : StoreData) (now : Nat) (id : String)
    (st : JStatus) (err : Option String) (outDir : String)
    (audio : Option String) (hj : getKey d.jobs id = none)
    (hc : getKey d.chapters id = none) :
    updateJobStatus d now id st err = (d, false)
    ∧ updateJobOutputDir d now id outDir = (d, false)
    ∧ updateChapterStatus d now id st audio err = (d, false) := by
  unfold updateJobStatus updateJobOutputDir updateChapterStatus
  rw [hj, hc]
  exact ⟨rfl, rfl, rfl⟩

/-- Witness for C10 on the empty store. -/
theorem missing_id_noop_witness :
    updateJobStatus ⟨[], []⟩ 0 "j" JStatus.failed (some "e") = (⟨[], []⟩, false)
    ∧ updateJobOutputDir ⟨[], []⟩ 0 "j" "out" = (⟨[], []⟩, false)
    ∧ updateChapterStatus ⟨[], []⟩ 0 "j" JStatus.failed none (some "e")
        = (⟨[], []⟩, false) :=
  missing_id_noop ⟨[], []⟩ 0 "j" JStatus.failed (some "e") "out" none rfl rfl

/-! ## Worker (`src/backend/worker.js`) -/

/-- worker.js line 231: `Math.min(1000 * Math.pow(2, attempt), 30000)` — the
backoff waited after the failed attempt numbered `attempt`. -/
def backoffMs (attempt : Nat) : Nat := min (1000 * 2 ^ attempt) 30000

/-- Result of one `processChapter` invocation, as seen by the retry loop:
`Except.ok` when the awaited promise resolves with a usable audio file,
`Except.error msg` when it throws. -/
abbrev AttemptResult := Except String Unit

/-- `Worker.processChapterWithRetry` (worker.js lines 221–237), recursion on
the remaining loop iterations.  `att k` is the outcome of the `k`-th
(1-based) `processChapter` attempt.  Returns the number of attempts made,
the list of backoff delays awaited (in order), and the propagated outcome.
`fuel` is `maxRetries - attempt + 1`, the number of loop iterations left. -/
def retryGo (att : Nat → AttemptResult) (maxRetries : Nat) :
    Nat → Nat → Nat × List Nat × AttemptResult
  | _, 0 => (0, [], Except.ok ())
  | attempt, fuel + 1 =>
    match att attempt with
    | Except.ok () => (1, [], Except.ok ())
    | Except.error e =>
      if attempt = maxRetries then (1, [], Except.error e)
      else
        let rest := retryGo att maxRetries (attempt + 1) fuel
        (rest.1 + 1, backoffMs attempt :: rest.2.1, rest.2.2)

/-- `processChapterWithRetry(chapter, outputDir, maxRetries = 3)`: the loop
runs `attempt = 1 … maxRetries`; every caller uses the default
`maxRetries = 3`, passed explicitly here. -/
def processChapterWithRetry (att : Nat → AttemptResult)
    (maxRetries : Nat) : Nat × List Nat × AttemptResult :=
  retryGo att maxRetries 1 maxRetries

/-- The per-chapter catch in `Worker.processJob` (worker.js lines 208–215)
followed by the job-level catch in `Worker.processJobAsync` (lines 179–182):
when the retry loop exhausts with error `e`, the chapter is marked
`'failed'` with that error, the error is rethrown, and the job is marked
`'failed'` with `error.message` recorded. -/
def failChapterAndJob (d : StoreData) (now : Nat) (chapterId jobId : String)
    (e : String) : StoreData :=
  let d1 := (updateChapterStatus d now chapterId JStatus.failed none (some e)).1
  (updateJobStatus d1 now jobId JStatus.failed (some e)).1

/-- Outcome of `Worker.callTTSEngine` (worker.js lines 267–322): the promise
either resolves with the parsed first result `{success, output_file, error}`
or rejects (missing script, non-zero exit, unparsable stdout, spawn error). -/
inductive TTSOutcome where
  | resolved (success : Bool) (output_file : Option String) (error : Option String)
  | rejected (msg : String)
deriving DecidableEq, Repr

/-- `Worker.processChapter` (worker.js lines 239–265), tracking the fate of
the per-chapter temp file.  The returned `Bool` is true iff
`fs.unlinkSync(tempChapterFile)` (line 257) executed.  When `callTTSEngine`
rejects, the `await` on line 254 throws and control leaves `processChapter`
before line 257, so the unlink is skipped; when it resolves the unlink runs,
and afterwards the result decides success (line 260) or a thrown error
(line 263, `result.error || 'TTS generation failed'`). -/
def processChapterTempFile (tts : TTSOutcome) :
    Except String (Option String) × Bool :=
  match tts with
  | TTSOutcome.rejected msg => (Except.error msg, false)
  | TTSOutcome.resolved success output_file error =>
    if success ∧ output_file.isSome then (Except.ok output_file, true)
    else (Except.error (error.getD "TTS generation failed"), true)

/-- C2: a chapter whose synthesis attempt fails every time is attempted
exactly `maxRetries = 3` times (worker.js line 221); after the two non-final
failed attempts the loop waits `min(1000 * 2^attempt, 30000)` ms (line 231),
each delay at least `1000 * 2^(attempt-1)`; the final error propagates, the
chapter is marked `'failed'` with that error (worker.js line 213) and the
owning job is marked `'failed'` with the error recorded (line 180). -/
theorem retry_exhaustion_fails_job (att : Nat → AttemptResult)
    (h : ∀ k, ∃ e, att k = Except.error e) (d : StoreData) (now : Nat)
    (chapterId : String) (ch : Chapter) (job : Job) (e3 : String)
    (hch : getKey d.chapters chapterId = some ch)
    (hjob : getKey d.jobs ch.job_id = some job)
    (he3 : att 3 = Except.error e3) :
    (processChapterWithRetry att 3).1 = 3
    ∧ (processChapterWithRetry att 3).2.1 = [backoffMs 1, backoffMs 2]
    ∧ backoffMs 1 = min (1000 * 2 ^ 1) 30000
    ∧ backoffMs 2 = min (1000 * 2 ^ 2) 30000
    ∧ 1000 * 2 ^ 0 ≤ backoffMs 1 ∧ 1000 * 2 ^ 1 ≤ backoffMs 2
    ∧ (processChapterWithRetry att 3).2.2 = Except.error e3
    ∧ ∃ ch' job',
        getKey (failChapterAndJob d now chapterId ch.job_id e3).chapters
            chapterId = some ch'
        ∧ ch'.status = JStatus.failed ∧ ch'.error = some e3
        ∧ getKey (failChapterAndJob d now chapterId ch.job_id e3).jobs
            ch.job_id = some job'
        ∧ job'.status = JStatus.failed ∧ job'.error = some e3 := by
  obtain ⟨e1, he1⟩ := h 1
  obtain ⟨e2, he2⟩ := h 2
  refine ⟨?_, ?_, rfl, rfl, by decide, by decide, ?_, ?_⟩
  · simp [processChapterWithRetry, retryGo, he1, he2, he3]
  · simp [processChapterWithRetry, retryGo, he1, he2, he3]
  · simp [processChapterWithRetry, retryGo, he1, he2, he3]
  · unfold failChapterAndJob updateChapterStatus
    rw [hch]
    simp only []
    have hne : ¬(JStatus.failed = JStatus.completed) := by decide
    rw [if_neg hne]
    unfold updateJobStatus
    simp only [hjob]
    exact ⟨_, _, getKey_setKey_self _ _ _ (by rw [hch]; rfl), rfl, rfl,
      getKey_setKey_self _ _ _ (by rw [hjob]; rfl), rfl, rfl⟩

/-- Witness for C2: the always-failing oracle on the concrete store. -/
theorem retry_exhaustion_fails_job_witness :
    (processChapterWithRetry (fun _ => Except.error "boom") 3).1 = 3
    ∧ (processChapterWithRetry (fun _ => Except.error "boom") 3).2.1
        = [backoffMs 1, backoffMs 2]
    ∧ backoffMs 1 = min (1000 * 2 ^ 1) 30000
    ∧ backoffMs 2 = min (1000 * 2 ^ 2) 30000
    ∧ 1000 * 2 ^ 0 ≤ backoffMs 1 ∧ 1000 * 2 ^ 1 ≤ backoffMs 2
    ∧ (processChapterWithRetry (fun _ => Except.error "boom") 3).2.2
        = Except.error "boom"
    ∧ ∃ ch' job',
        getKey (failChapterAndJob wStore 7 "c1" wCh.job_id "boom").chapters
            "c1" = some ch'
        ∧ ch'.status = JStatus.failed ∧ ch'.error = some "boom"
        ∧ getKey (failChapterAndJob wStore 7 "c1" wCh.job_id "boom").jobs
            wCh.job_id = some job'
        ∧ job'.status = JStatus.failed ∧ job'.error = some "boom" :=
  retry_exhaustion_fails_job (fun _ => Except.error "boom")
    (fun _ => ⟨"boom", rfl⟩) wStore 7 "c1" wCh wJob "boom" rfl rfl rfl

/-- C5 counterexample: when `callTTSEngine` rejects (here with the non-zero
exit message of worker.js line 305), the `await` on line 254 throws before
line 257 runs, so the per-chapter temp file is *not* deleted — refuting
"deleted after the call regardless of outcome". -/
theorem temp_file_left_on_reject :
    processChapterTempFile
        (TTSOutcome.rejected "TTS process exited with code 1: boom")
      = (Except.error "TTS process exited with code 1: boom", false) := rfl

/-- C5 amended: the temp file is deleted exactly when `callTTSEngine`
resolves — both on success and on a reported failure in the parsed result
(worker.js lines 254–263); when the promise rejects, the deletion on line
257 is skipped and the file is left for the startup stale-temp cleanup
(worker.js lines 102–134). -/
theorem temp_file_deleted_iff_resolved (tts : TTSOutcome) :
    (processChapterTempFile tts).2 = true
      ↔ ∃ success output_file error,
          tts = TTSOutcome.resolved success output_file error := by
  cases tts with
  | resolved s o e =>
    simp only [processChapterTempFile]
    constructor
    · intro _
      exact ⟨s, o, e, rfl⟩
    · intro _
      by_cases h : s = true ∧ o.isSome = true
      · rw [if_pos h]
      · rw [if_neg h]
  | rejected m =>
    simp [processChapterTempFile]

/-! ### Worker scheduling step relation (C3)

`Worker.processNext` (worker.js lines 152–167) dispatches a pending job only
while `this.activeJobs < this.settings.maxConcurrentJobs`;
`Worker.processJobAsync` (lines 169–186) increments `activeJobs` and marks
the job `'processing'` in the same synchronous block (no intervening
`await`), and on completion sets the terminal status (line 177 / 180) before
decrementing `activeJobs` (line 184), again synchronously.  Node runs these
synchronous blocks atomically, so each is one step of the relation. -/

/-- Worker-visible scheduling state: the status of every job in the store
plus the worker's `activeJobs` counter. -/
structure SchedState where
  jobs : List JStatus
  activeJobs : Nat
deriving DecidableEq, Repr

/-- Number of jobs whose status is `'processing'`. -/
def countProcessing (s : SchedState) : Nat :=
  (s.jobs.filter (fun st => st = JStatus.processing)).length

/-- One scheduling step: a new job is enqueued as `'pending'`
(`Queue.createJob`), `processNext` dispatches a pending job under the
concurrency guard, or a dispatched job task finishes (terminal status set,
then `activeJobs--`). -/
inductive SchedStep (maxConcurrentJobs : Nat) : SchedState → SchedState → Prop where
  | enqueue (s : SchedState) :
      SchedStep maxConcurrentJobs s ⟨s.jobs ++ [JStatus.pending], s.activeJobs⟩
  | dispatch (s : SchedState) (i : Nat)
      (hi : s.jobs.get? i = some JStatus.pending)
      (hcap : s.activeJobs < maxConcurrentJobs) :
      SchedStep maxConcurrentJobs s
        ⟨s.jobs.set i JStatus.processing, s.activeJobs + 1⟩
  | finish (s : SchedState) (i : Nat) (st : JStatus)
      (hi : s.jobs.get? i = some JStatus.processing)
      (hst : st = JStatus.completed ∨ st = JStatus.failed) :
      SchedStep maxConcurrentJobs s ⟨s.jobs.set i st, s.activeJobs - 1⟩

/-- States reachable from a worker start: no job is `'processing'` yet and
the `activeJobs` counter starts at 0 (worker.js line 27). -/
inductive SchedReachable (maxConcurrentJobs : Nat) : SchedState → Prop where
  | init (jobs : List JStatus) (h : JStatus.processing ∉ jobs) :
      SchedReachable maxConcurrentJobs ⟨jobs, 0⟩
  | step {s t : SchedState} : SchedReachable maxConcurrentJobs s →
      SchedStep maxConcurrentJobs s t → SchedReachable maxConcurrentJobs t

theorem length_filter_set {α : Type} (l : List α) (i : Nat) (a b : α)
    (h : l.get? i = some a) (p : α → Bool) :
    ((l.set i b).filter p).length + (if p a then 1 else 0)
      = (l.filter p).length + (if p b then 1 else 0) := by
  induction l generalizing i with
  | nil => simp at h
  | cons x xs ih =>
    cases i with
    | zero =>
      simp only [List.get?] at h
      cases h
      simp only [List.set, List.filter]
      cases hb : p b <;> cases ha : p a <;> simp [hb, ha]
    | succ n =>
      simp only [List.get?] at h
      have := ih n h
      simp only [List.set, List.filter]
      cases hx : p x <;> simp [hx] <;> omega

theorem one_le_filter_of_get {α : Type} (l : List α) (i : Nat) (a : α)
    (h : l.get? i = some a) (p : α → Bool) (hp : p a = true) :
    1 ≤ (l.filter p).length := by
  induction l generalizing i with
  | nil => simp at h
  | cons x xs ih =>
    cases i with
    | zero =>
      simp only [List.get?] at h
      cases h
      simp [List.filter, hp]
    | succ n =>
      simp only [List.get?] at h
      have := ih n h
      simp only [List.filter]
      cases hx : p x
      · simpa [hx] using this
      · simp [hx]

theorem sched_step_invariant (maxConcurrentJobs : Nat) {s t : SchedState}
    (hstep : SchedStep maxConcurrentJobs s t)
    (ih1 : countProcessing s ≤ s.activeJobs)
    (ih2 : s.activeJobs ≤ maxConcurrentJobs) :
    countProcessing t ≤ t.activeJobs ∧ t.activeJobs ≤ maxConcurrentJobs := by
  cases hstep with
  | enqueue =>
    refine ⟨?_, ih2⟩
    simpa [countProcessing, List.filter_append] using ih1
  | dispatch i hi hcap =>
    constructor
    · have hset := length_filter_set s.jobs i JStatus.pending JStatus.processing hi
        (fun st => decide (st = JStatus.processing))
      simp only [decide_eq_true_eq, eq_self_iff_true, if_true] at hset
      rw [if_neg (by intro hx; exact JStatus.noConfusion hx)] at hset
      dsimp only [countProcessing] at ih1 ⊢
      omega
    · exact hcap
  | finish i st hi hst =>
    have hset := length_filter_set s.jobs i JStatus.processing st hi
      (fun st => decide (st = JStatus.processing))
    have hone := one_le_filter_of_get s.jobs i JStatus.processing hi
      (fun st => decide (st = JStatus.processing)) (by simp)
    have hstf : ¬(st = JStatus.processing) := by
      rcases hst with h1 | h1 <;> subst h1 <;> intro hx <;> exact JStatus.noConfusion hx
    simp only [decide_eq_true_eq, eq_self_iff_true, if_true] at hset
    rw [if_neg hstf] at hset
    dsimp only [countProcessing] at ih1 hone ⊢
    constructor
    · omega
    · dsimp only
      omega

theorem sched_invariant (maxConcurrentJobs : Nat) {s : SchedState}
    (h : SchedReachable maxConcurrentJobs s) :
    countProcessing s ≤ s.activeJobs ∧ s.activeJobs ≤ maxConcurrentJobs := by
  induction h with
  | init jobs hnone =>
    constructor
    · have : jobs.filter (fun st => st = JStatus.processing) = [] := by
        rw [List.filter_eq_nil_iff]
        intro a ha
        simp only [decide_eq_true_eq]
        intro hEq
        exact hnone (hEq ▸ ha)
      simp [countProcessing, this]
    · exact Nat.zero_le _
  | step _ hstep ih =>
    exact sched_step_invariant maxConcurrentJobs hstep ih.1 ih.2

/-- C3: at no reachable instant does the number of `'processing'` jobs
exceed the configured ceiling `settings.maxConcurrentJobs` — the invariant
of the poll/dispatch step relation of worker.js lines 152–186, starting from
a worker start with no processing jobs. -/
theorem processing_jobs_bounded (maxConcurrentJobs : Nat) {s : SchedState}
    (h : SchedReachable maxConcurrentJobs s) :
    countProcessing s ≤ maxConcurrentJobs :=
  le_trans (sched_invariant maxConcurrentJobs h).1
    (sched_invariant maxConcurrentJobs h).2

/-- Witness for C3: with ceiling 1, the state reached by enqueueing one job
and dispatching it is reachable and satisfies the bound. -/
theorem processing_jobs_bounded_witness :
    countProcessing ⟨[JStatus.processing], 1⟩ ≤ 1 :=
  processing_jobs_bounded 1
    (SchedReachable.step
      (SchedReachable.step (SchedReachable.init [] (by simp))
        (SchedStep.enqueue ⟨[], 0⟩))
      (SchedStep.dispatch ⟨[JStatus.pending], 0⟩ 0 rfl Nat.zero_lt_one))

/-! ## Cleaning-stage fault tolerance (C8)

Exceptions have no native counterpart in a pure embedding, so a stage's
inner computation is modelled as a function into `Except`: `.ok` is the
transformed text, `.error` an internal failure (a thrown exception). -/

/-- A cleaning stage's inner computation with internal failure explicit. -/
abbrev StageCore := List Char → Except String (List Char)

/-- v2 stage wrapper: in text-cleaner-v2.js every stage body (removeTOC line
371, removeCopyright line 394, removeHeadersFooters line 405,
removePageNumbers line 463, fixHyphenation line 484, normalizeWhitespace
line 495) is wrapped in `try { … } catch { console.warn(…); return text; }`,
so an internal failure yields the input unchanged. -/
def stageGuarded (core : StageCore) (text : List Char) : List Char :=
  match core text with
  | Except.ok r => r
  | Except.error _ => text

/-- v2 `cleanText` (text-cleaner-v2.js lines 334–368): the six guarded
stages in source order — removeTOC, removeCopyright, removeHeadersFooters,
removePageNumbers, fixHyphenation, normalizeWhitespace. -/
def cleanTextV2Faulty (cores : Fin 6 → StageCore) (text : List Char) :
    List Char :=
  stageGuarded (cores 5)
    (stageGuarded (cores 4)
      (stageGuarded (cores 3)
        (stageGuarded (cores 2)
          (stageGuarded (cores 1)
            (stageGuarded (cores 0) text)))))

/-- v1 `cleanText` (text-cleaner.js lines 85–107): the same six stages, but
in text-cleaner.js no stage body has any try/catch, so an internal failure
in any stage propagates out of `cleanText` as an exception. -/
def cleanTextV1Faulty (cores : Fin 6 → StageCore) (text : List Char) :
    Except String (List Char) :=
  cores 0 text >>= cores 1 >>= cores 2 >>= cores 3 >>= cores 4 >>= cores 5

/-- Stage cores that all fail internally, used to exhibit the exception
paths. -/
def crashingCores : Fin 6 → StageCore :=
  fun _ _ => Except.error "internal failure"

/-- C8 counterexample: in the v1 cleaner (text-cleaner.js lines 85–207,
cited by the claim) the stages have no try/catch, so a stage-internal
failure propagates out of `cleanText` instead of degrading to the input —
refuting "cleanText never propagates a stage-internal exception" for v1. -/
theorem cleanText_v1_propagates_failure :
    cleanTextV1Faulty crashingCores [Char.ofNat 120]
      = Except.error "internal failure" := rfl

/-- C8 amended: the per-stage fault tolerance holds in the v2 cleaner only —
there each guarded stage returns its input unchanged on an internal failure,
and `cleanText` (whose result type is exception-free by construction)
degrades to the identity when every stage fails. -/
theorem stage_fault_tolerance_v2 (core : StageCore)
    (cores : Fin 6 → StageCore) (t text : List Char) (e : String)
    (hcore : core t = Except.error e)
    (hall : ∀ i u, ∃ err, cores i u = Except.error err) :
    stageGuarded core t = t ∧ cleanTextV2Faulty cores text = text := by
  constructor
  · simp [stageGuarded, hcore]
  · have hg : ∀ (i : Fin 6) (u : List Char), stageGuarded (cores i) u = u := by
      intro i u
      obtain ⟨err, herr⟩ := hall i u
      simp [stageGuarded, herr]
    simp [cleanTextV2Faulty, hg]

/-- Witness for C8's amended theorem with everywhere-failing cores. -/
theorem stage_fault_tolerance_v2_witness :
    stageGuarded (crashingCores 0) [Char.ofNat 97] = [Char.ofNat 97]
    ∧ cleanTextV2Faulty crashingCores [Char.ofNat 98] = [Char.ofNat 98] :=
  stage_fault_tolerance_v2 (crashingCores 0) crashingCores
    [Char.ofNat 97] [Char.ofNat 98] "internal failure" rfl
    (fun _ _ => ⟨"internal failure", rfl⟩)

/-! ## Text layer: character classes and whitespace normalization

JS strings are embedded as `List Char`.  The regex character class `[ \t]`
and JS whitespace (`\s`, and the set removed by `String.prototype.trim`) are
modelled for the ASCII repertoire the pipeline handles. -/

/-- The regex class `[ \t]`. -/
def isSpaceTab (c : Char) : Bool := c = ' ' ∨ c = '\t'

/-- JS whitespace (`\s` / `trim`), restricted to ASCII: space, tab, LF, CR,
VT, FF. -/
def isWsChar (c : Char) : Bool :=
  c = ' ' ∨ c = '\t' ∨ c = '\n' ∨ c = '\r' ∨ c = Char.ofNat 11 ∨ c = Char.ofNat 12

/-- Leading-whitespace removal half of `String.prototype.trim()`. -/
def trimLeftWS (l : List Char) : List Char := l.dropWhile isWsChar

/-- Trailing-whitespace removal half of `String.prototype.trim()`. -/
def trimRightWS (l : List Char) : List Char :=
  (l.reverse.dropWhile isWsChar).reverse

/-- `String.prototype.trim()`. -/
def trimJS (l : List Char) : List Char := trimRightWS (trimLeftWS l)

/-- `.replace(/[ \t]+/g, ' ')` (text-cleaner.js line 204): each maximal run
of spaces/tabs becomes a single space.  `inRun` records whether the current
position is inside a run whose replacement space was already emitted. -/
def collapseSpacesAux : Bool → List Char → List Char
  | _, [] => []
  | inRun, c :: cs =>
    if isSpaceTab c then
      if inRun then collapseSpacesAux true cs
      else ' ' :: collapseSpacesAux true cs
    else c :: collapseSpacesAux false cs

/-- The whole `[ \t]+ → ' '` replacement. -/
def collapseSpaces (l : List Char) : List Char := collapseSpacesAux false l

/-- `.replace(/\n{3,}/g, '\n\n')` (text-cleaner.js line 205): a run of `n`
newlines keeps its first `min n 2` newlines.  `k` counts the newlines of
the current run already emitted (capped at 2). -/
def collapseNlAux : Nat → List Char → List Char
  | _, [] => []
  | k, c :: cs =>
    if c = '\n' then
      if k < 2 then '\n' :: collapseNlAux (k + 1) cs
      else collapseNlAux k cs
    else c :: collapseNlAux 0 cs

/-- The whole `\n{3,} → '\n\n'` replacement. -/
def collapseNl (l : List Char) : List Char := collapseNlAux 0 l

/-- `TextCleaner.normalizeWhitespace` (text-cleaner.js lines 202–207;
text-cleaner-v2.js lines 494–504 is the same computation): collapse
space/tab runs, collapse newline runs of three or more, then trim. -/
def normalizeWhitespace (l : List Char) : List Char :=
  trimJS (collapseNl (collapseSpaces l))

/-- String-level wrapper of `normalizeWhitespace`. -/
def normalizeWhitespaceS (s : String) : String :=
  String.mk (normalizeWhitespace s.data)

/-! ### Normal forms for idempotence

The normal form established by each replacement is expressed as a small
Boolean automaton so that it mirrors the corresponding collapse automaton.
-/

/-- Normal form of the `[ \t]+ → ' '` replacement: no tab remains and no
two adjacent space/tab characters remain.  `b` records whether the previous
character was a space. -/
def spacesNormedAux : Bool → List Char → Bool
  | _, [] => true
  | b, c :: cs =>
    if isSpaceTab c then
      if b ∨ c = '\t' then false else spacesNormedAux true cs
    else spacesNormedAux false cs

/-- A list in the normal form of the space-run replacement. -/
def spacesNormed (l : List Char) : Prop := spacesNormedAux false l = true

/-- Normal form of the `\n{3,} → '\n\n'` replacement: no three consecutive
newlines.  `k` counts the current run's newlines seen so far (capped at 2).
-/
def nlNormedAux : Nat → List Char → Bool
  | _, [] => true
  | k, c :: cs =>
    if c = '\n' then
      if k < 2 then nlNormedAux (k + 1) cs else false
    else nlNormedAux 0 cs

/-- A list in the normal form of the newline-run replacement. -/
def nlNormed (l : List Char) : Prop := nlNormedAux 0 l = true

theorem spacesNormedAux_mono {l : List Char}
    (h : spacesNormedAux true l = true) : spacesNormedAux false l = true := by
  cases l with
  | nil => rfl
  | cons c cs =>
    by_cases hc : isSpaceTab c = true
    · simp [spacesNormedAux, hc] at h
    · simp [spacesNormedAux, hc] at h ⊢
      exact h

theorem nlNormedAux_mono {l : List Char} {k k' : Nat} (hk : k' ≤ k)
    (h : nlNormedAux k l = true) : nlNormedAux k' l = true := by
  induction l generalizing k k' with
  | nil => rfl
  | cons c cs ih =>
    by_cases hc : c = '\n'
    · simp [nlNormedAux, hc] at h ⊢
      obtain ⟨h1, h2⟩ := h
      exact ⟨by omega, ih (Nat.add_le_add_right hk 1) h2⟩
    · simp [nlNormedAux, hc] at h ⊢
      exact ih (le_refl 0) h

theorem spacesNormedAux_append_left {x y : List Char} {b : Bool}
    (h : spacesNormedAux b (x ++ y) = true) : spacesNormedAux b x = true := by
  induction x generalizing b with
  | nil => rfl
  | cons c cs ih =>
    by_cases hc : isSpaceTab c = true
    · simp [spacesNormedAux, hc] at h ⊢
      exact ⟨h.1, ih h.2⟩
    · simp [spacesNormedAux, hc] at h ⊢
      exact ih h

theorem spacesNormedAux_append_right {x y : List Char} {b : Bool}
    (h : spacesNormedAux b (x ++ y) = true) : spacesNormedAux false y = true := by
  induction x generalizing b with
  | nil =>
    cases b with
    | false => exact h
    | true => exact spacesNormedAux_mono h
  | cons c cs ih =>
    by_cases hc : isSpaceTab c = true
    · simp [spacesNormedAux, hc] at h
      exact ih h.2
    · simp [spacesNormedAux, hc] at h
      exact ih h

theorem nlNormedAux_append_left {x y : List Char} {k : Nat}
    (h : nlNormedAux k (x ++ y) = true) : nlNormedAux k x = true := by
  induction x generalizing k with
  | nil => rfl
  | cons c cs ih =>
    by_cases hc : c = '\n'
    · simp [nlNormedAux, hc] at h ⊢
      exact ⟨h.1, ih h.2⟩
    · simp [nlNormedAux, hc] at h ⊢
      exact ih h

theorem nlNormedAux_append_right {x y : List Char} {k : Nat}
    (h : nlNormedAux k (x ++ y) = true) : nlNormedAux 0 y = true := by
  induction x generalizing k with
  | nil => exact nlNormedAux_mono (Nat.zero_le k) h
  | cons c cs ih =>
    by_cases hc : c = '\n'
    · simp [nlNormedAux, hc] at h
      exact ih h.2
    · simp [nlNormedAux, hc] at h
      exact ih h

theorem spacesNormedAux_collapseSpacesAux (l : List Char) :
    ∀ b, spacesNormedAux b (collapseSpacesAux b l) = true := by
  induction l with
  | nil => intro b; rfl
  | cons c cs ih =>
    intro b
    by_cases hc : isSpaceTab c = true
    · have ht : (' ' = '\t') = False := by simp
      cases b with
      | true => simp only [collapseSpacesAux, hc, if_true, if_pos hc]; exact ih true
      | false =>
        simp only [collapseSpacesAux, hc, if_true, if_pos hc]
        simp only [spacesNormedAux, isSpaceTab]
        simp
        exact ih true
    · simp only [collapseSpacesAux, if_neg hc]
      simp only [spacesNormedAux, if_neg hc]
      exact ih false

theorem collapseSpacesAux_eq_self (l : List Char) :
    ∀ b, spacesNormedAux b l = true → collapseSpacesAux b l = l := by
  induction l with
  | nil => intro b _; rfl
  | cons c cs ih =>
    intro b h
    by_cases hc : isSpaceTab c = true
    · simp only [spacesNormedAux, if_pos hc] at h
      by_cases hcond : (b ∨ c = '\t')
      · rw [if_pos hcond] at h
        exact absurd h (by simp)
      · rw [if_neg hcond] at h
        push_neg at hcond
        have hb : b = false := by
          cases b
          · rfl
          · exact absurd rfl hcond.1
        have hsp : c = ' ' := by
          have := hcond.2
          simp only [isSpaceTab] at hc
          rcases of_decide_eq_true hc with h1 | h1
          · exact h1
          · exact absurd h1 this
        subst hb
        simp only [collapseSpacesAux, if_pos hc]
        rw [ih true h, hsp]
        simp
    · simp only [spacesNormedAux, if_neg hc] at h
      simp only [collapseSpacesAux, if_neg hc]
      rw [ih false h]

theorem nlNormedAux_collapseNlAux (l : List Char) :
    ∀ k, nlNormedAux k (collapseNlAux k l) = true := by
  induction l with
  | nil => intro k; rfl
  | cons c cs ih =>
    intro k
    by_cases hc : c = '\n'
    · subst hc
      by_cases hk : k < 2
      · simp only [collapseNlAux, if_pos rfl, if_pos hk]
        simp only [nlNormedAux, if_pos rfl, if_pos hk]
        exact ih (k + 1)
      · simp only [collapseNlAux, if_pos rfl, if_neg hk]
        exact ih k
    · simp only [collapseNlAux, if_neg hc]
      simp only [nlNormedAux, if_neg hc]
      exact ih 0

theorem collapseNlAux_eq_self (l : List Char) :
    ∀ k, nlNormedAux k l = true → collapseNlAux k l = l := by
  induction l with
  | nil => intro k _; rfl
  | cons c cs ih =>
    intro k h
    by_cases hc : c = '\n'
    · subst hc
      simp only [nlNormedAux, if_pos rfl] at h
      by_cases hk : k < 2
      · rw [if_pos hk] at h
        simp only [collapseNlAux, if_pos rfl, if_pos hk]
        simp only [if_pos trivial] at h ⊢
        rw [ih (k + 1) h]
      · rw [if_neg hk] at h
        exact absurd h (by simp)
    · simp only [nlNormedAux, if_neg hc] at h
      simp only [collapseNlAux, if_neg hc]
      rw [ih 0 h]

theorem spacesNormedAux_collapseNlAux (l : List Char) :
    ∀ (k : Nat) (b : Bool), (1 ≤ k → b = false) →
      spacesNormedAux b l = true → spacesNormedAux b (collapseNlAux k l) = true := by
  induction l with
  | nil => intro k b _ _; rfl
  | cons c cs ih =>
    intro k b hkb h
    by_cases hc : c = '\n'
    · subst hc
      have hns : isSpaceTab '\n' = false := by decide
      simp only [spacesNormedAux, hns, Bool.false_eq_true, if_false] at h
      by_cases hk : k < 2
      · simp only [collapseNlAux, if_pos rfl, if_pos hk]
        simp only [spacesNormedAux, hns, Bool.false_eq_true, if_false]
        exact ih (k + 1) false (fun _ => rfl) h
      · have hb : b = false := hkb (by omega)
        subst hb
        simp only [collapseNlAux, if_pos rfl, if_neg hk]
        exact ih k false (fun _ => rfl) h
    · simp only [collapseNlAux, if_neg hc]
      by_cases hsp : isSpaceTab c = true
      · simp only [spacesNormedAux, if_pos hsp] at h ⊢
        by_cases hcond : (b = true ∨ c = '\t')
        · simp only [if_pos (by simpa using hcond)] at h
          exact absurd h (by simp)
        · rw [if_neg (by simpa using hcond)] at h ⊢
          exact ih 0 true (by omega) h
      · simp only [spacesNormedAux, if_neg hsp] at h ⊢
        exact ih 0 false (fun _ => rfl) h

theorem trimLeftWS_decomp (l : List Char) : ∃ t, t ++ trimLeftWS l = l :=
  ⟨l.takeWhile isWsChar, List.takeWhile_append_dropWhile isWsChar l⟩

theorem trimRightWS_decomp (l : List Char) : ∃ t, trimRightWS l ++ t = l := by
  refine ⟨(l.reverse.takeWhile isWsChar).reverse, ?_⟩
  have h : l.reverse.takeWhile isWsChar ++ l.reverse.dropWhile isWsChar
      = l.reverse := List.takeWhile_append_dropWhile isWsChar l.reverse
  have h2 := congrArg List.reverse h
  rw [List.reverse_append, List.reverse_reverse] at h2
  exact h2

theorem spacesNormed_trimJS {l : List Char}
    (h : spacesNormedAux false l = true) :
    spacesNormedAux false (trimJS l) = true := by
  obtain ⟨t, ht⟩ := trimLeftWS_decomp l
  have hta : spacesNormedAux false (t ++ trimLeftWS l) = true := by
    rw [ht]; exact h
  have h1 : spacesNormedAux false (trimLeftWS l) = true :=
    spacesNormedAux_append_right hta
  obtain ⟨t2, ht2⟩ := trimRightWS_decomp (trimLeftWS l)
  have htb : spacesNormedAux false (trimRightWS (trimLeftWS l) ++ t2) = true := by
    rw [ht2]; exact h1
  exact spacesNormedAux_append_left htb

theorem nlNormed_trimJS {l : List Char} (h : nlNormedAux 0 l = true) :
    nlNormedAux 0 (trimJS l) = true := by
  obtain ⟨t, ht⟩ := trimLeftWS_decomp l
  have hta : nlNormedAux 0 (t ++ trimLeftWS l) = true := by
    rw [ht]; exact h
  have h1 : nlNormedAux 0 (trimLeftWS l) = true :=
    nlNormedAux_append_right hta
  obtain ⟨t2, ht2⟩ := trimRightWS_decomp (trimLeftWS l)
  have htb : nlNormedAux 0 (trimRightWS (trimLeftWS l) ++ t2) = true := by
    rw [ht2]; exact h1
  exact nlNormedAux_append_left htb

theorem dropWhile_head_not (p : Char → Bool) (l : List Char) {c : Char}
    (h : (l.dropWhile p).head? = some c) : p c = false := by
  induction l with
  | nil => simp [List.dropWhile] at h
  | cons a as ih =>
    rw [List.dropWhile_cons] at h
    by_cases ha : p a = true
    · rw [if_pos ha] at h
      exact ih h
    · rw [if_neg ha] at h
      simp only [List.head?_cons, Option.some.injEq] at h
      subst h
      simpa using ha

theorem dropWhile_eq_self_of_head (p : Char → Bool) (l : List Char)
    (h : ∀ c, l.head? = some c → p c = false) : l.dropWhile p = l := by
  cases l with
  | nil => rfl
  | cons a as =>
    rw [List.dropWhile_cons, if_neg]
    rw [h a rfl]
    simp

theorem trimJS_idem (l : List Char) : trimJS (trimJS l) = trimJS l := by
  have hL : trimLeftWS (trimJS l) = trimJS l := by
    apply dropWhile_eq_self_of_head
    intro c hc
    obtain ⟨t2, ht2⟩ := trimRightWS_decomp (trimLeftWS l)
    cases hcase : trimRightWS (trimLeftWS l) with
    | nil =>
      rw [show trimJS l = trimRightWS (trimLeftWS l) from rfl, hcase] at hc
      simp at hc
    | cons a r =>
      rw [show trimJS l = trimRightWS (trimLeftWS l) from rfl, hcase] at hc
      have hac : a = c := by simpa using hc
      rw [hcase] at ht2
      have hhead : (trimLeftWS l).head? = some a := by
        rw [← ht2]
        rfl
      rw [← hac]
      exact dropWhile_head_not isWsChar l hhead
  have hR : trimRightWS (trimJS l) = trimJS l := by
    show trimRightWS (trimRightWS (trimLeftWS l)) = trimRightWS (trimLeftWS l)
    unfold trimRightWS
    rw [List.reverse_reverse]
    congr 1
    apply dropWhile_eq_self_of_head
    intro c hc
    exact dropWhile_head_not isWsChar (trimLeftWS l).reverse hc
  calc trimJS (trimJS l) = trimRightWS (trimLeftWS (trimJS l)) := rfl
    _ = trimRightWS (trimJS l) := by rw [hL]
    _ = trimJS l := hR

theorem normalizeWhitespace_idem (l : List Char) :
    normalizeWhitespace (normalizeWhitespace l) = normalizeWhitespace l := by
  have hs0 : spacesNormedAux false (collapseSpaces l) = true :=
    spacesNormedAux_collapseSpacesAux l false
  have hs1 : spacesNormedAux false (collapseNl (collapseSpaces l)) = true :=
    spacesNormedAux_collapseNlAux (collapseSpaces l) 0 false (by omega) hs0
  have hn1 : nlNormedAux 0 (collapseNl (collapseSpaces l)) = true :=
    nlNormedAux_collapseNlAux (collapseSpaces l) 0
  have hs2 : spacesNormedAux false (normalizeWhitespace l) = true :=
    spacesNormed_trimJS hs1
  have hn2 : nlNormedAux 0 (normalizeWhitespace l) = true :=
    nlNormed_trimJS hn1
  show trimJS (collapseNl (collapseSpaces (normalizeWhitespace l)))
      = normalizeWhitespace l
  rw [show collapseSpaces (normalizeWhitespace l) = normalizeWhitespace l from
    collapseSpacesAux_eq_self _ false hs2]
  rw [show collapseNl (normalizeWhitespace l) = normalizeWhitespace l from
    collapseNlAux_eq_self _ 0 hn2]
  exact trimJS_idem _

/-- C9: `normalizeWhitespace` (text-cleaner.js lines 202–207 and
text-cleaner-v2.js lines 494–504) is idempotent: running it on its own
output is a no-op, for every string. -/
theorem normalizeWhitespace_idempotent (t : String) :
    normalizeWhitespaceS (normalizeWhitespaceS t) = normalizeWhitespaceS t :=
  congrArg String.mk (normalizeWhitespace_idem t.data)

/-! ## Chapter segmenter (`detectChapters`)

`text.split('\n')` and the heading regexes of `this.chapterPatterns`
(text-cleaner.js lines 12–17, text-cleaner-v2.js lines 21–26 — the two
lists are identical). -/

/-- `text.split('\n')`: always returns at least one (possibly empty) line. -/
def splitNl : List Char → List (List Char)
  | [] => [[]]
  | c :: cs =>
    if c = '\n' then [] :: splitNl cs
    else
      match splitNl cs with
      | [] => [[c]]
      | l :: ls => (c :: l) :: ls

/-- The regex class `[\s:\.]` terminating a chapter-heading number. -/
def isSepChar (c : Char) : Bool := isWsChar c ∨ c = ':' ∨ c = '.'

/-- Roman-numeral letters `[IVXLCDM]`, case-insensitively (for the
`/…/i`-flagged first pattern). -/
def isRomanCI (c : Char) : Bool :=
  c.toLower = 'i' ∨ c.toLower = 'v' ∨ c.toLower = 'x' ∨ c.toLower = 'l'
  ∨ c.toLower = 'c' ∨ c.toLower = 'd' ∨ c.toLower = 'm'

/-- Roman-numeral letters `[IVXLCDM]`, case-sensitively. -/
def isRomanCS (c : Char) : Bool :=
  c = 'I' ∨ c = 'V' ∨ c = 'X' ∨ c = 'L' ∨ c = 'C' ∨ c = 'D' ∨ c = 'M'

/-- Case-insensitive literal prefix match; returns the remainder.  The
pattern is given lowercased. -/
def stripCI : List Char → List Char → Option (List Char)
  | [], rest => some rest
  | _ :: _, [] => none
  | p :: ps, c :: cs => if c.toLower = p then stripCI ps cs else none

/-- Case-sensitive literal prefix match; returns the remainder. -/
def stripCS : List Char → List Char → Option (List Char)
  | [], rest => some rest
  | _ :: _, [] => none
  | p :: ps, c :: cs => if c = p then stripCS ps cs else none

/-- `\s+` (maximal, which is faithful because no continuation of the
patterns accepts a whitespace character). -/
def wsRun1 : List Char → Option (List Char)
  | c :: cs => if isWsChar c then some (cs.dropWhile isWsChar) else none
  | [] => none

/-- `\d+` (maximal, faithful likewise: a shorter match leaves a digit where
the patterns require a non-digit). -/
def digitRun1 : List Char → Option (List Char)
  | c :: cs => if c.isDigit then some (cs.dropWhile Char.isDigit) else none
  | [] => none

/-- `[IVXLCDM]+` under the `/i` flag (maximal, faithful likewise). -/
def romanRun1CI : List Char → Option (List Char)
  | c :: cs => if isRomanCI c then some (cs.dropWhile isRomanCI) else none
  | [] => none

/-- `[IVXLCDM]+`, case-sensitive (maximal, faithful likewise). -/
def romanRun1CS : List Char → Option (List Char)
  | c :: cs => if isRomanCS c then some (cs.dropWhile isRomanCS) else none
  | [] => none

/-- Head of the remainder is in the class `[\s:\.]`. -/
def headSep : Option (List Char) → Bool
  | some (c :: _) => isSepChar c
  | _ => false

/-- Pattern 1, `/^Chapter\s+(\d+|[IVXLCDM]+)[\s:\.]/i`. -/
def chapterPat1 (l : List Char) : Bool :=
  match stripCI "chapter".data l with
  | none => false
  | some r1 =>
    match wsRun1 r1 with
    | none => false
    | some r2 => headSep (digitRun1 r2) || headSep (romanRun1CI r2)

/-- Pattern 2, `/^CHAPTER\s+(\d+|[IVXLCDM]+)[\s:\.]/` (case-sensitive;
subsumed by pattern 1 but present in the source list). -/
def chapterPat2 (l : List Char) : Bool :=
  match stripCS "CHAPTER".data l with
  | none => false
  | some r1 =>
    match wsRun1 r1 with
    | none => false
    | some r2 => headSep (digitRun1 r2) || headSep (romanRun1CS r2)

/-- `\.\s+[A-Z]` continuation of pattern 3. -/
def dotWsUpper : Option (List Char) → Bool
  | some ('.' :: r) =>
    match wsRun1 r with
    | some (c :: _) => 'A' ≤ c ∧ c ≤ 'Z'
    | _ => false
  | _ => false

/-- Pattern 3, `/^(\d+|[IVXLCDM]+)\.\s+[A-Z]/`. -/
def chapterPat3 (l : List Char) : Bool :=
  dotWsUpper (digitRun1 l) || dotWsUpper (romanRun1CS l)

/-- Pattern 4, `/^\d+\s*$/`. -/
def chapterPat4 (l : List Char) : Bool :=
  match digitRun1 l with
  | some r => r.all isWsChar
  | none => false

/-- `this.chapterPatterns.some(pattern => pattern.test(line))`. -/
def isChapterLine (l : List Char) : Bool :=
  chapterPat1 l || chapterPat2 l || chapterPat3 l || chapterPat4 l

/-- `/\.{3,}\s*\d+$/.test(line)` (text-cleaner.js line 222): the line ends in
a dot-run of three or more, optional whitespace, and a page number.  Parsed
from the right; maximality of each stripped run is faithful because each
preceding regex piece rejects the character class of the following one. -/
def isTOCEntry (l : List Char) : Bool :=
  let r := l.reverse
  let digits := r.takeWhile Char.isDigit
  let r2 := (r.dropWhile Char.isDigit).dropWhile isWsChar
  ¬digits.isEmpty ∧ (r2.takeWhile (fun c => c = '.')).length ≥ 3

/-- `isChapter && line.length < 100 && !isTOCEntry` (text-cleaner.js line
224, text-cleaner-v2.js line 522; `line` is already trimmed). -/
def isBoundaryLine (l : List Char) : Bool :=
  isChapterLine l ∧ l.length < 100 ∧ ¬isTOCEntry l

/-- One chapter record as built by `detectChapters`. -/
structure SegChapter where
  number : Nat
  title : List Char
  text : List Char
  startLine : Nat
  wordCount : Nat
deriving DecidableEq, Repr

/-- Number of `"x".split(/\s+/)` pieces that are words, i.e. maximal
non-whitespace runs.  `inWord` tracks whether the previous character was
part of a word. -/
def countRuns : Bool → List Char → Nat
  | _, [] => 0
  | inWord, c :: cs =>
    if isWsChar c then countRuns false cs
    else (if inWord then 0 else 1) + countRuns true cs

/-- `text.split(/\s+/).length` in JS: the empty string yields `[""]`
(length 1), and a leading/trailing separator contributes an empty piece. -/
def jsSplitWsCount (l : List Char) : Nat :=
  match l with
  | [] => 1
  | c :: _ =>
    countRuns false l + (if isWsChar c then 1 else 0)
      + (match l.getLast? with
         | some d => if isWsChar d then 1 else 0
         | none => 0)

/-- `TextCleaner.countWords` of text-cleaner-v2.js lines 593–599. -/
def countWordsV2 (l : List Char) : Nat :=
  let t := trimJS l
  if t.isEmpty then 0 else jsSplitWsCount t

/-- Accumulator of the `detectChapters` loop. -/
structure SegState where
  chapters : List SegChapter
  current : Option SegChapter
  num : Nat
deriving DecidableEq, Repr

/-- Closing a chapter in v1 (text-cleaner.js lines 226–229 and 258–261):
trim the accumulated text and compute `text.split(/\s+/).length`. -/
def pushV1 (c : SegChapter) (chs : List SegChapter) : List SegChapter :=
  let t := trimJS c.text
  chs ++ [{ c with text := t, wordCount := jsSplitWsCount t }]

/-- Loop body of v1 `detectChapters` (text-cleaner.js lines 215–255) for
line index `i`. -/
def stepV1 (st : SegState) (i : Nat) (rawLine : List Char) : SegState :=
  let line := trimJS rawLine
  if isBoundaryLine line then
    let chapters :=
      match st.current with
      | some c => pushV1 c st.chapters
      | none => st.chapters
    { chapters := chapters,
      current := some ⟨st.num + 1, line, [], i, 0⟩,
      num := st.num + 1 }
  else
    match st.current with
    | some c => { st with current := some { c with text := c.text ++ line ++ ['\n'] } }
    | none =>
      if st.num = 0 then
        { st with current := some ⟨0, "Introduction".data, line ++ ['\n'], 0, 0⟩ }
      else st

/-- `TextCleaner.detectChapters` of text-cleaner.js lines 209–276. -/
def detectChaptersV1 (text : List Char) : List SegChapter :=
  let lines := splitNl text
  let st := lines.enum.foldl (fun s p => stepV1 s p.1 p.2) ⟨[], none, 0⟩
  let chapters :=
    match st.current with
    | some c => pushV1 c st.chapters
    | none => st.chapters
  if chapters.isEmpty then
    [{ number := 1, title := "Full Text".data, text := trimJS text,
       startLine := 0, wordCount := jsSplitWsCount (trimJS text) }]
  else chapters

/-- Closing a chapter in v2 (text-cleaner-v2.js lines 524–532 and 562–569):
additionally discards the chapter when its word count is 10 or fewer. -/
def pushV2 (c : SegChapter) (chs : List SegChapter) : List SegChapter :=
  let t := trimJS c.text
  let wc := countWordsV2 t
  if wc > 10 then chs ++ [{ c with text := t, wordCount := wc }] else chs

/-- Loop body of v2 `detectChapters` (text-cleaner-v2.js lines 513–559):
titles are truncated to 200 characters and the synthetic introduction is
only opened on a non-empty line. -/
def stepV2 (st : SegState) (i : Nat) (rawLine : List Char) : SegState :=
  let line := trimJS rawLine
  if isBoundaryLine line then
    let chapters :=
      match st.current with
      | some c => pushV2 c st.chapters
      | none => st.chapters
    { chapters := chapters,
      current := some ⟨st.num + 1, line.take 200, [], i, 0⟩,
      num := st.num + 1 }
  else
    match st.current with
    | some c => { st with current := some { c with text := c.text ++ line ++ ['\n'] } }
    | none =>
      if st.num = 0 ∧ line ≠ [] then
        { st with current := some ⟨0, "Introduction".data, line ++ ['\n'], 0, 0⟩ }
      else st

/-- `TextCleaner.detectChapters` of text-cleaner-v2.js lines 506–591. -/
def detectChaptersV2 (text : List Char) : List SegChapter :=
  let lines := splitNl text
  let st := lines.enum.foldl (fun s p => stepV2 s p.1 p.2) ⟨[], none, 0⟩
  let chapters :=
    match st.current with
    | some c => pushV2 c st.chapters
    | none => st.chapters
  if chapters.isEmpty then
    [{ number := 1, title := "Full Text".data, text := trimJS text,
       startLine := 0, wordCount := countWordsV2 (trimJS text) }]
  else chapters

/-! ### Chapter ordinal ordering (C4) -/

/-- Invariant of the v2 `detectChapters` loop: saved chapter numbers are
strictly increasing, bounded by the counter, all below the open chapter's
number, and nothing is saved before the counter first moves. -/
def SegInvV2 (st : SegState) : Prop :=
  st.chapters.Pairwise (fun a b => a.number < b.number)
  ∧ (∀ c ∈ st.chapters, c.number ≤ st.num)
  ∧ (∀ cur, st.current = some cur →
      cur.number ≤ st.num ∧ ∀ c ∈ st.chapters, c.number < cur.number)
  ∧ (st.num = 0 → st.chapters = [])

theorem mem_pushV2 {c : SegChapter} {x : SegChapter} {chs : List SegChapter}
    (h : c ∈ pushV2 x chs) : c ∈ chs ∨ c.number = x.number := by
  unfold pushV2 at h
  by_cases hwc : countWordsV2 (trimJS x.text) > 10
  · simp only [hwc, if_true] at h
    rcases List.mem_append.1 h with h1 | h1
    · exact Or.inl h1
    · right
      simp only [List.mem_singleton] at h1
      subst h1
      rfl
  · simp only [hwc, if_false] at h
    exact Or.inl h

theorem pairwise_pushV2 {x : SegChapter} {chs : List SegChapter}
    (hp : chs.Pairwise (fun a b => a.number < b.number))
    (hx : ∀ c ∈ chs, c.number < x.number) :
    (pushV2 x chs).Pairwise (fun a b => a.number < b.number) := by
  unfold pushV2
  by_cases hwc : countWordsV2 (trimJS x.text) > 10
  · simp only [hwc, if_true]
    rw [List.pairwise_append]
    refine ⟨hp, List.pairwise_singleton _ _, ?_⟩
    intro a ha b hb
    simp only [List.mem_singleton] at hb
    subst hb
    exact hx a ha
  · simp only [hwc, if_false]
    exact hp

theorem stepV2_inv (st : SegState) (i : Nat) (rawLine : List Char)
    (h : SegInvV2 st) : SegInvV2 (stepV2 st i rawLine) := by
  obtain ⟨hp, hb, hcur, hz⟩ := h
  cases hval : isBoundaryLine (trimJS rawLine) with
  | true =>
    cases hc : st.current with
    | some c =>
      obtain ⟨hcn, hclt⟩ := hcur c hc
      simp only [stepV2, hval, eq_self_iff_true, if_true, hc]
      refine ⟨?_, ?_, ?_, ?_⟩
      · exact pairwise_pushV2 hp hclt
      · intro d hd
        rcases mem_pushV2 hd with h1 | h1
        · exact le_trans (hb d h1) (Nat.le_succ _)
        · rw [h1]; exact le_trans hcn (Nat.le_succ _)
      · intro cur hc2
        simp only [Option.some.injEq] at hc2
        subst hc2
        refine ⟨le_refl _, ?_⟩
        intro d hd
        rcases mem_pushV2 hd with h1 | h1
        · exact Nat.lt_succ_of_le (hb d h1)
        · rw [h1]; exact Nat.lt_succ_of_le hcn
      · intro hnum
        exact absurd hnum (Nat.succ_ne_zero _)
    | none =>
      simp only [stepV2, hval, eq_self_iff_true, if_true, hc]
      refine ⟨hp, ?_, ?_, ?_⟩
      · intro d hd
        exact le_trans (hb d hd) (Nat.le_succ _)
      · intro cur hc2
        simp only [Option.some.injEq] at hc2
        subst hc2
        refine ⟨le_refl _, ?_⟩
        intro d hd
        exact Nat.lt_succ_of_le (hb d hd)
      · intro hnum
        exact absurd hnum (Nat.succ_ne_zero _)
  | false =>
    cases hc : st.current with
    | some c =>
      simp only [stepV2, hval, Bool.false_eq_true, if_false, hc]
      refine ⟨hp, hb, ?_, hz⟩
      intro cur hc2
      simp only [Option.some.injEq] at hc2
      subst hc2
      exact hcur c hc
    | none =>
      by_cases hn : st.num = 0 ∧ trimJS rawLine ≠ []
      · simp only [stepV2, hval, Bool.false_eq_true, if_false, hc, if_pos hn]
        refine ⟨hp, hb, ?_, hz⟩
        intro cur hc2
        simp only [Option.some.injEq] at hc2
        subst hc2
        refine ⟨Nat.zero_le _, ?_⟩
        intro d hd
        rw [hz hn.1] at hd
        exact absurd hd (List.not_mem_nil d)
      · simp only [stepV2, hval, Bool.false_eq_true, if_false, hc, if_neg hn]
        exact ⟨hp, hb, hcur, hz⟩

theorem foldl_stepV2_inv (ps : List (Nat × List Char)) (st : SegState)
    (h : SegInvV2 st) :
    SegInvV2 (ps.foldl (fun s p => stepV2 s p.1 p.2) st) := by
  induction ps generalizing st with
  | nil => exact h
  | cons p ps ih => exact ih _ (stepV2_inv st p.1 p.2 h)

/-- C4 amended: the chapter numbers produced by the v2 segmenter
(text-cleaner-v2.js lines 506–591) are strictly increasing — hence unique —
for every input text; density (no gaps) is what fails, see the
counterexample. -/
theorem chapter_numbers_strictly_increasing (text : List Char) :
    List.Pairwise (· < ·) ((detectChaptersV2 text).map SegChapter.number) := by
  rw [List.pairwise_map]
  unfold detectChaptersV2
  have hinv := foldl_stepV2_inv (splitNl text).enum ⟨[], none, 0⟩
    ⟨List.Pairwise.nil, by intro c hc; exact absurd hc (List.not_mem_nil c),
     by intro cur h; exact absurd h (by simp),
     fun _ => rfl⟩
  obtain ⟨hp, _, hcur, _⟩ := hinv
  simp only []
  cases hc : ((splitNl text).enum.foldl (fun s p => stepV2 s p.1 p.2)
      ⟨[], none, 0⟩).current with
  | some c =>
    have hpush := pairwise_pushV2 hp (hcur c hc).2
    by_cases he : (pushV2 c ((splitNl text).enum.foldl
        (fun s p => stepV2 s p.1 p.2) ⟨[], none, 0⟩).chapters).isEmpty = true
    · simp only [hc, he, if_true]
      exact List.pairwise_singleton _ _
    · simp only [hc, he, if_false]
      exact hpush
  | none =>
    by_cases he : (((splitNl text).enum.foldl (fun s p => stepV2 s p.1 p.2)
        ⟨[], none, 0⟩).chapters).isEmpty = true
    · simp only [hc, he, if_true]
      exact List.pairwise_singleton _ _
    · simp only [hc, he, if_false]
      exact hp

/-- The document used to exhibit the ordinal gap: the middle chapter's body
is 3 words, under the 10-word floor. -/
def gapDoc : String :=
  "Chapter 1: A\na b c d e f g h i j k l\nChapter 2: B\nshort words here\nChapter 3: C\nm n o p q r s t u v w x"

/-- C4 counterexample: the v2 segmenter discards `Chapter 2: B` for its
word count yet keeps its ordinal consumed, so the returned numbers are
`[1, 3]` — strictly increasing but with a gap (2 is missing), refuting
"densely increasing ordinals with no gaps". -/
theorem discarded_chapter_leaves_gap :
    (detectChaptersV2 gapDoc.data).map SegChapter.number = [1, 3]
    ∧ ¬ (2 ∈ (detectChaptersV2 gapDoc.data).map SegChapter.number) := by
  constructor
  · rfl
  · intro h
    rw [show (detectChaptersV2 gapDoc.data).map SegChapter.number = [1, 3]
      from rfl] at h
    simp at h

/-! ### Zero-boundary segmentation (C6) -/

theorem snd_mem_of_mem_enumFrom {α : Type} (l : List α) (n : Nat)
    (p : Nat × α) (h : p ∈ List.enumFrom n l) : p.2 ∈ l := by
  induction l generalizing n with
  | nil => simp [List.enumFrom] at h
  | cons a as ih =>
    rcases List.mem_cons.1 h with h1 | h1
    · subst h1
      exact List.mem_cons_self _ _
    · exact List.mem_cons_of_mem _ (ih (n + 1) h1)

theorem enumFrom_map_snd {α β : Type} (f : α → β) (l : List α) (n : Nat) :
    (List.enumFrom n l).map (fun p => f p.2) = l.map f := by
  induction l generalizing n with
  | nil => rfl
  | cons a as ih =>
    simp only [List.enumFrom, List.map_cons]
    rw [ih (n + 1)]

theorem splitNl_ne_nil (text : List Char) : splitNl text ≠ [] := by
  cases text with
  | nil => simp [splitNl]
  | cons c cs =>
    simp only [splitNl]
    by_cases hc : c = '\n'
    · simp [hc]
    · simp only [hc, if_false]
      cases splitNl cs <;> simp

/-- The single chapter text produced for a boundary-free input: every line
trimmed, re-joined with a newline after each, then trimmed as a whole
(text-cleaner.js lines 242–261). -/
def introText (text : List Char) : List Char :=
  trimJS (((splitNl text).map (fun l => trimJS l ++ ['\n'])).flatten)

theorem stepV1_first (i : Nat) (line : List Char)
    (h : isBoundaryLine (trimJS line) = false) :
    stepV1 ⟨[], none, 0⟩ i line
      = ⟨[], some ⟨0, "Introduction".data, trimJS line ++ ['\n'], 0, 0⟩, 0⟩ := by
  simp [stepV1, h]

theorem foldV1_intro (ps : List (Nat × List Char)) (ttl : List Char)
    (h : ∀ p ∈ ps, isBoundaryLine (trimJS p.2) = false) (acc : List Char) :
    ps.foldl (fun s p => stepV1 s p.1 p.2) ⟨[], some ⟨0, ttl, acc, 0, 0⟩, 0⟩
      = ⟨[], some ⟨0, ttl,
          acc ++ (ps.map (fun p => trimJS p.2 ++ ['\n'])).flatten, 0, 0⟩, 0⟩ := by
  induction ps generalizing acc with
  | nil => simp
  | cons p ps ih =>
    have hp := h p (List.mem_cons_self p ps)
    rw [List.foldl_cons]
    have hstep : stepV1 ⟨[], some ⟨0, ttl, acc, 0, 0⟩, 0⟩ p.1 p.2
        = ⟨[], some ⟨0, ttl, acc ++ (trimJS p.2 ++ ['\n']), 0, 0⟩, 0⟩ := by
      simp [stepV1, hp]
    rw [hstep, ih (fun q hq => h q (List.mem_cons_of_mem p hq))]
    simp

/-- C6 amended: when no line of the input is a chapter boundary, the v1
segmenter returns exactly one chapter — ordinal 0, titled `Introduction` —
whose text is the input with every line trimmed (not the input verbatim;
see the counterexample for the difference). -/
theorem seg_zero_boundaries_single_chapter (text : List Char)
    (h : ∀ line ∈ splitNl text, isBoundaryLine (trimJS line) = false) :
    detectChaptersV1 text
      = [{ number := 0, title := "Introduction".data, text := introText text,
           startLine := 0, wordCount := jsSplitWsCount (introText text) }] := by
  unfold detectChaptersV1
  cases hl : splitNl text with
  | nil => exact absurd hl (splitNl_ne_nil text)
  | cons l0 rest =>
    have h0 : isBoundaryLine (trimJS l0) = false :=
      h l0 (by rw [hl]; exact List.mem_cons_self _ _)
    have hrest : ∀ p ∈ List.enumFrom 1 rest, isBoundaryLine (trimJS p.2) = false := by
      intro p hp
      exact h p.2
        (by rw [hl]; exact List.mem_cons_of_mem _ (snd_mem_of_mem_enumFrom rest 1 p hp))
    have henum : (l0 :: rest).enum = (0, l0) :: List.enumFrom 1 rest := rfl
    have hmap : (List.enumFrom 1 rest).map (fun p => trimJS p.2 ++ ['\n'])
        = rest.map (fun l => trimJS l ++ ['\n']) :=
      enumFrom_map_snd (fun l => trimJS l ++ ['\n']) rest 1
    have htext : (trimJS l0 ++ ['\n']) ++ (rest.map (fun l => trimJS l ++ ['\n'])).flatten
        = ((splitNl text).map (fun l => trimJS l ++ ['\n'])).flatten := by
      rw [hl]
      simp
    simp only [henum, List.foldl_cons, stepV1_first 0 l0 h0,
      foldV1_intro (List.enumFrom 1 rest) "Introduction".data hrest, hmap]
    simp only [pushV1, htext]
    rw [show introText text
        = trimJS (((splitNl text).map (fun l => trimJS l ++ ['\n'])).flatten) from rfl]
    simp

/-- Witness for C6's amended theorem on a concrete two-line input. -/
theorem seg_zero_boundaries_single_chapter_witness :
    detectChaptersV1 "hello\nworld".data
      = [{ number := 0, title := "Introduction".data,
           text := introText "hello\nworld".data, startLine := 0,
           wordCount := jsSplitWsCount (introText "hello\nworld".data) }] :=
  seg_zero_boundaries_single_chapter "hello\nworld".data (by decide)

/-- C6 counterexample: `"a\n b"` is a fixed point of the cleaner's
whitespace normalization (so a possible cleaned text), has no boundary
line, and segmentation returns one chapter whose text `"a\nb"` differs from
the input — the per-line trim drops the blank before `b` — refuting "one
chapter whose text equals the full cleaned input". -/
theorem seg_zero_boundaries_text_differs :
    normalizeWhitespace "a\n b".data = "a\n b".data
    ∧ (∀ line ∈ splitNl "a\n b".data, isBoundaryLine (trimJS line) = false)
    ∧ (detectChaptersV1 "a\n b".data).length = 1
    ∧ (detectChaptersV1 "a\n b".data).map SegChapter.text ≠ ["a\n b".data] := by
  refine ⟨rfl, by decide, rfl, ?_⟩
  intro hcontra
  rw [show (detectChaptersV1 "a\n b".data).map SegChapter.text
    = ["a\nb".data] from rfl] at hcontra
  simp at hcontra

/-! ## The v1 cleaning pipeline (`TextCleaner.cleanText`, text-cleaner.js)

Each stage embeds the corresponding regex replacement.  All the patterns
below are line-anchored or literal, so they are implemented over the line
structure; each doc comment records the regex and, where a maximal-munch
simplification is used, why it is faithful. -/

/-- A line matching `^.*?\.{3,}\s*\d+\s*$` (the per-line body of removeTOC's
second pattern, text-cleaner.js line 115).  Parsed from the right: trailing
whitespace, then at least one digit, then whitespace, then at least three
dots.  Each maximal strip is faithful because the character class of each
regex piece excludes its right neighbour's. -/
def tocDotLine (l : List Char) : Bool :=
  let r := (l.reverse).dropWhile isWsChar
  let digits := r.takeWhile Char.isDigit
  let r2 := (r.dropWhile Char.isDigit).dropWhile isWsChar
  ¬digits.isEmpty ∧ (r2.takeWhile (fun c => c = '.')).length ≥ 3

/-- Split off the first line: returns the line's content and, when a
newline terminated it, the remainder after the newline. -/
def takeLine : List Char → List Char × Option (List Char)
  | [] => ([], none)
  | c :: cs =>
    if c = '\n' then ([], some cs)
    else
      let p := takeLine cs
      (c :: p.1, p.2)

theorem takeLine_rest_length (s : List Char) (l r : List Char)
    (h : takeLine s = (l, some r)) : r.length < s.length := by
  induction s generalizing l with
  | nil => simp [takeLine] at h
  | cons c cs ih =>
    by_cases hc : c = '\n'
    · simp only [takeLine, hc, if_true] at h
      cases h
      simp
    · simp only [takeLine, hc, if_false] at h
      have h2 : takeLine cs = ((takeLine cs).1, some r) := by
        cases htl : takeLine cs
        simp only [htl] at h
        obtain ⟨h3, h4⟩ := Prod.mk.injEq .. ▸ h
        simp only [htl]
        rw [← h4]
      exact Nat.lt_succ_of_lt (ih _ h2)

/-- Length of the maximal run of `tocDotLine`s, each newline-terminated,
from the current position, with the remainder after the run.  The fuel
argument (instantiated with the string length, which bounds the number of
lines) only serves termination. -/
def tocRunF : Nat → List Char → Nat × List Char
  | 0, s => (0, s)
  | fuel + 1, s =>
    match takeLine s with
    | (_, none) => (0, s)
    | (l, some r) =>
      if tocDotLine l then
        let nr := tocRunF fuel r
        (nr.1 + 1, nr.2)
      else (0, s)

/-- `text.replace(/(?:^.*?\.{3,}\s*\d+\s*$\n){3,}/gm, '\n\n')`
(text-cleaner.js lines 115 and 119–121): every maximal run of three or more
newline-terminated TOC dot-lines is replaced by two newlines.  Matches can
only start at line starts (the `^` anchor) and the final line of the string
cannot take part (its `$` is not followed by a `\n`).  Fuel as above. -/
def removeTOCdotsF : Nat → List Char → List Char
  | 0, s => s
  | fuel + 1, s =>
    match takeLine s with
    | (_, none) => s
    | (l, some r) =>
      if tocDotLine l then
        let nr := tocRunF r.length r
        if nr.1 + 1 ≥ 3 then '\n' :: '\n' :: removeTOCdotsF fuel nr.2
        else l ++ '\n' :: removeTOCdotsF fuel r
      else l ++ '\n' :: removeTOCdotsF fuel r

/-- The dot-run TOC replacement, with enough fuel for every line. -/
def removeTOCdots (s : List Char) : List Char := removeTOCdotsF s.length s

/-- The heading part `TABLE\s+OF\s+CONTENTS` of removeTOC's first pattern
(text-cleaner.js line 113), case-insensitively, matched at the head;
returns the remainder.  Maximal whitespace runs are faithful since the
following literals start with non-whitespace. -/
def tocHeadingMatch (s : List Char) : Option (List Char) :=
  match stripCI "table".data s with
  | none => none
  | some r1 =>
    match wsRun1 r1 with
    | none => none
    | some r2 =>
      match stripCI "of".data r2 with
      | none => none
      | some r3 =>
        match wsRun1 r3 with
        | none => none
        | some r4 => stripCI "contents".data r4

/-- `\s*\n+` after the heading: the whole whitespace run is consumed and
must end in a newline (the next pattern piece starts with the non-blank
`Chapter`). -/
def consumeWsNl (s : List Char) : Option (List Char) :=
  let w := s.takeWhile isWsChar
  if w.getLast? = some '\n' then some (s.dropWhile isWsChar) else none

/-- One `Chapter.*?\.+.*?\d+\s*` entry line of the first TOC pattern
(case-insensitive): after the `Chapter` literal the line must end in
optional whitespace preceded by at least one digit, with a dot somewhere
before the digits. -/
def tocEntryLine (l : List Char) : Bool :=
  match stripCI "chapter".data l with
  | none => false
  | some r =>
    let r1 := (r.reverse).dropWhile isWsChar
    let digits := r1.takeWhile Char.isDigit
    ¬digits.isEmpty ∧ (r1.dropWhile Char.isDigit).contains '.'

/-- Maximal run of newline-terminated TOC entry lines (each `\n+` also
swallowing following blank newlines), with the remainder.  Fuel as before.
-/
def tocEntriesRunF : Nat → List Char → Nat × List Char
  | 0, s => (0, s)
  | fuel + 1, s =>
    match takeLine s with
    | (_, none) => (0, s)
    | (l, some r) =>
      if tocEntryLine l then
        let r2 := r.dropWhile (fun c => c = '\n')
        let nr := tocEntriesRunF fuel r2
        (nr.1 + 1, nr.2)
      else (0, s)

/-- `text.replace(/TABLE\s+OF\s+CONTENTS\s*\n+(?:Chapter.*?\.+.*?\d+\s*\n+){2,}/i, '\n\n')`
(text-cleaner.js lines 113 and 119–121): the first position where the
heading is followed by two or more entry lines is replaced (once — the
pattern has no `g` flag) by two newlines. -/
def removeTOChead : List Char → List Char
  | [] => []
  | c :: cs =>
    match tocHeadingMatch (c :: cs) with
    | some r =>
      match consumeWsNl r with
      | some r2 =>
        let nr := tocEntriesRunF r2.length r2
        if nr.1 ≥ 2 then '\n' :: '\n' :: nr.2
        else c :: removeTOChead cs
      | none => c :: removeTOChead cs
    | none => c :: removeTOChead cs

/-- `TextCleaner.removeTOC` (text-cleaner.js lines 109–124): the two
patterns applied in order. -/
def removeTOC (s : List Char) : List Char := removeTOCdots (removeTOChead s)

/-- The five copyright markers of text-cleaner.js line 128, lowercased (the
second is the two-character mojibake sequence that appears verbatim in the
source).  At any one position at most one can match (their first letters
differ), so trying them in order is faithful to the alternation. -/
def markerAt (l : List Char) : Option (List Char) :=
  match stripCI "copyright".data l with
  | some r => some r
  | none =>
    match stripCI "â©".data l with
    | some r => some r
    | none =>
      match stripCI "isbn".data l with
      | some r => some r
      | none =>
        match stripCI "published".data l with
        | some r => some r
        | none => stripCI "all rights reserved".data l

/-- Find the first `\n{2,}` run and drop everything up to and including it
(the run is consumed greedily). -/
def dropThroughDoubleNl : List Char → Option (List Char)
  | [] => none
  | c :: cs =>
    match cs with
    | c2 :: rest =>
      if c = '\n' ∧ c2 = '\n' then some (rest.dropWhile (fun x => x = '\n'))
      else dropThroughDoubleNl cs
    | [] => none

/-- Scan for the first marker occurrence followed somewhere by a double
newline; returns the remainder after the greedy newline run. -/
def findCopyrightEnd : List Char → Option (List Char)
  | [] => none
  | c :: cs =>
    match markerAt (c :: cs) with
    | some r =>
      match dropThroughDoubleNl r with
      | some rest => some rest
      | none => findCopyrightEnd cs
    | none => findCopyrightEnd cs

/-- `TextCleaner.removeCopyright` (text-cleaner.js lines 126–130):
`text.replace(/^.*?(?:copyright|Â©|isbn|published|all rights reserved).*?\n{2,}/ims, '')`.
With the `s` flag the lazy dots span newlines, and `^` matches at position
0, so the first match — when one exists — removes the prefix up to and
including the first double-newline run after the earliest marker that has
one. -/
def removeCopyright (s : List Char) : List Char :=
  match findCopyrightEnd s with
  | some rest => rest
  | none => s

/-- `lines.join('\n')`. -/
def joinNl : List (List Char) → List Char
  | [] => []
  | [l] => l
  | l :: ls => l ++ '\n' :: joinNl ls

/-- The page-start indices `i = 0, 60, 120, …  < lines.length` of the
header/footer sampling loop (text-cleaner.js line 142, `pageLength = 60`).
-/
def hfSampleIdx (len : Nat) : List Nat :=
  (List.range ((len + 59) / 60)).map (fun k => k * 60)

/-- `Map.set(key, (Map.get(key) || 0) + 1)`, preserving insertion order. -/
def bumpCount : List (List Char × Nat) → List Char → List (List Char × Nat)
  | [], key => [(key, 1)]
  | kv :: rest, key =>
    if kv.1 = key then (kv.1, kv.2 + 1) :: rest else kv :: bumpCount rest key

/-- The guard `line && line.trim().length > 0 && line.trim().length < 100`
(text-cleaner.js lines 146 and 154): the raw line is non-empty (JS
truthiness of a string) and its trim is non-empty and under 100 chars. -/
def hfCandidate (line : List Char) : Option (List Char) :=
  if line ≠ [] ∧ 0 < (trimJS line).length ∧ (trimJS line).length < 100 then
    some (trimJS line)
  else none

/-- The header samples: lines `i, i+1, i+2` of each page window
(text-cleaner.js lines 144–149). -/
def headerKeys (lines : List (List Char)) : List (List Char) :=
  (hfSampleIdx lines.length).flatMap fun i =>
    [i, i + 1, i + 2].filterMap fun j =>
      match lines.get? j with
      | some line => hfCandidate line
      | none => none

/-- The footer samples: lines `i+59, i+58, i+57` (the loop `j = 1..3` over
`i + pageLength - j`, text-cleaner.js lines 152–157). -/
def footerKeys (lines : List (List Char)) : List (List Char) :=
  (hfSampleIdx lines.length).flatMap fun i =>
    [i + 59, i + 58, i + 57].filterMap fun j =>
      match lines.get? j with
      | some line => hfCandidate line
      | none => none

/-- Keys occurring at least `repeatThreshold = 3` times (text-cleaner.js
lines 160–168). -/
def commonOf (keys : List (List Char)) : List (List Char) :=
  ((keys.foldl bumpCount []).filter (fun kv => kv.2 ≥ 3)).map Prod.fst

/-- `TextCleaner.removeHeadersFooters` (text-cleaner.js lines 132–177):
sample the first/last three lines of each 60-line window, count repeated
trimmed lines, and drop every line whose trim is a common header or footer.
-/
def removeHeadersFooters (s : List Char) : List Char :=
  let lines := splitNl s
  let commonHeaders := commonOf (headerKeys lines)
  let commonFooters := commonOf (footerKeys lines)
  joinNl (lines.filter fun line =>
    ¬commonHeaders.contains (trimJS line) ∧ ¬commonFooters.contains (trimJS line))

/-- `^\s*\d+\s*$` (text-cleaner.js line 182). -/
def pgNum1 (l : List Char) : Bool :=
  match digitRun1 (l.dropWhile isWsChar) with
  | some r => r.all isWsChar
  | none => false

/-- A single expected character. -/
def expectChar (c : Char) : List Char → Option (List Char)
  | x :: xs => if x = c then some xs else none
  | [] => none

/-- `^\s*-\s*\d+\s*-\s*$` (text-cleaner.js line 183). -/
def pgNum2 (l : List Char) : Bool :=
  match expectChar '-' (l.dropWhile isWsChar) with
  | none => false
  | some r1 =>
    match digitRun1 (r1.dropWhile isWsChar) with
    | none => false
    | some r2 =>
      match expectChar '-' (r2.dropWhile isWsChar) with
      | none => false
      | some r3 => r3.all isWsChar

/-- `^\s*\[\s*\d+\s*\]\s*$` (text-cleaner.js line 184). -/
def pgNum3 (l : List Char) : Bool :=
  match expectChar '[' (l.dropWhile isWsChar) with
  | none => false
  | some r1 =>
    match digitRun1 (r1.dropWhile isWsChar) with
    | none => false
    | some r2 =>
      match expectChar ']' (r2.dropWhile isWsChar) with
      | none => false
      | some r3 => r3.all isWsChar

/-- `^\s*Page\s+\d+\s*$/i` (text-cleaner.js line 185). -/
def pgNum4 (l : List Char) : Bool :=
  match stripCI "page".data (l.dropWhile isWsChar) with
  | none => false
  | some r1 =>
    match wsRun1 r1 with
    | none => false
    | some r2 =>
      match digitRun1 r2 with
      | none => false
      | some r3 => r3.all isWsChar

/-- One `/^…$/gm`-with-`''` replacement: blank the content of every
matching line (the `$` does not consume the newline, so the line itself
stays). -/
def blankLines (p : List Char → Bool) (s : List Char) : List Char :=
  joinNl ((splitNl s).map fun l => if p l then [] else l)

/-- `TextCleaner.removePageNumbers` (text-cleaner.js lines 179–194): the
four patterns applied in source order. -/
def removePageNumbers (s : List Char) : List Char :=
  blankLines pgNum4 (blankLines pgNum3 (blankLines pgNum2 (blankLines pgNum1 s)))

/-- JS `\w` = `[A-Za-z0-9_]`. -/
def isWordChar (c : Char) : Bool := c.isAlpha ∨ c.isDigit ∨ c = '_'

/-- Attempt `(\w+)-\s*\n\s*(\w+)` given the word run `w` before the cursor
and the remainder `r`: a hyphen, then a whitespace run that contains a
newline, then a word run.  The whole whitespace run is consumed (the final
`\s*` is greedy and `\w` rejects whitespace), and the match requires at
least one newline inside it. -/
def tryHyphen (w r : List Char) : Option (List Char × List Char) :=
  match r with
  | '-' :: r2 =>
    let ws := r2.takeWhile isWsChar
    let rest := r2.dropWhile isWsChar
    if ws.contains '\n' then
      let w2 := rest.takeWhile isWordChar
      if w2.isEmpty then none
      else some (w ++ w2, rest.dropWhile isWordChar)
    else none
  | _ => none

/-- `text.replace(/(\w+)-\s*\n\s*(\w+)/g, '$1$2')` (text-cleaner.js line
199): scan left to right; a match can only begin at a word character, and
beginning anywhere inside a word run succeeds exactly when beginning at the
run's start does, so whole runs are consumed.  Fuel as before. -/
def fixHyphenationF : Nat → List Char → List Char
  | 0, s => s
  | fuel + 1, s =>
    match s with
    | [] => []
    | c :: cs =>
      if isWordChar c then
        let w := (c :: cs).takeWhile isWordChar
        let r := (c :: cs).dropWhile isWordChar
        match tryHyphen w r with
        | some p => p.1 ++ fixHyphenationF fuel p.2
        | none => w ++ fixHyphenationF fuel r
      else c :: fixHyphenationF fuel cs

/-- `TextCleaner.fixHyphenation`. -/
def fixHyphenation (s : List Char) : List Char := fixHyphenationF s.length s

/-- `TextCleaner.cleanText` (text-cleaner.js lines 85–107): the six stages
in fixed order. -/
def cleanTextV1 (s : List Char) : List Char :=
  normalizeWhitespace (fixHyphenation (removePageNumbers
    (removeHeadersFooters (removeCopyright (removeTOC s)))))

/-! ### The TOC scenario (C7) -/

/-- The claim's document: three TOC lines, a blank, then the bare headings
`Chapter 1` / `Chapter 2` / `Chapter 3`, each followed by body text. -/
def tocScenarioDoc : String :=
  "Chapter 1.......12\nChapter 2.......34\nChapter 3.......56\n\nChapter 1\nIt was a quiet morning in the village square.\nChapter 2\nThe rain kept falling over the old stone bridge.\nChapter 3\nBy evening the storm had moved past the hills.\n"

set_option maxRecDepth 100000 in
/-- C7 counterexample: after running the v1 cleaning pipeline on the
scenario document, segmentation does not produce 3 chapters with ordinals
1, 2, 3 — it produces a single ordinal-0 `Introduction` chapter, because
the bare heading `Chapter 1` (trimmed) ends right after the number and so
fails every heading pattern, each of which demands a `[\s:\.]` after the
number. -/
theorem toc_scenario_not_three_chapters :
    (detectChaptersV1 (cleanTextV1 tocScenarioDoc.data)).map SegChapter.number
      ≠ [1, 2, 3] := by
  intro h
  rw [show (detectChaptersV1 (cleanTextV1 tocScenarioDoc.data)).map
    SegChapter.number = [0] from rfl] at h
  simp at h

set_option maxRecDepth 100000 in
/-- C7 amended: cleaning does remove every TOC-pattern line (dot-run of
three or more plus a page number) — that half of the scenario holds — but
segmentation of the cleaned text yields exactly one chapter, ordinal 0,
titled `Introduction`, holding all the text, since the bare `Chapter N`
headings are not detected as boundaries. -/
theorem toc_scenario_cleaned_single_chapter :
    ((splitNl (cleanTextV1 tocScenarioDoc.data)).filter
        (fun l => tocDotLine l)).length = 0
    ∧ (detectChaptersV1 (cleanTextV1 tocScenarioDoc.data)).map
        SegChapter.number = [0]
    ∧ (detectChaptersV1 (cleanTextV1 tocScenarioDoc.data)).map
        SegChapter.title = ["Introduction".data] := ⟨rfl, rfl, rfl⟩

end Voicci